import Mathlib

/-!
Verification of the book-inventory manager (`book_manager.py`).

The development shallowly embeds the program's data model and operations:

* `Book` mirrors the `Book` dataclass (string fields, integer quantity).
* `addBook`, `removeBook`, `updateBook`, `increaseQuantity`,
  `decreaseQuantity`, `findByTitle`, `findByAuthor` mirror the
  `BookManager` CRUD methods, as pure functions on the in-memory list.
* `excelSaveBooks` / `excelLoadBooks` mirror `ExcelStorage.save_books` /
  `ExcelStorage.load_books`, with a spreadsheet modelled as a list of rows
  of cells.
* `sqliteSaveBooks` / `sqliteLoadBooks` mirror `SQLiteStorage.save_books` /
  `SQLiteStorage.load_books`, with the table modelled as the list of rows
  in insertion order and the SQL semantics (unique index with the NOCASE
  collation, `ORDER BY titulo COLLATE NOCASE`) made explicit.

Python's `str.lower` is modelled by `pyLower` (character-wise lowering with
`Char.toLower`), `str.strip` by `pyStrip`, and the substring test
`a in b` by `listContains`.
-/

/-- Model of Python's `str.lower`, applied character by character. -/
def pyLower (s : String) : String := ⟨s.data.map Char.toLower⟩

/-- Model of Python's `str.strip`: drop leading and trailing whitespace. -/
def pyStrip (s : String) : String :=
  ⟨((s.data.dropWhile Char.isWhitespace).reverse.dropWhile Char.isWhitespace).reverse⟩

/-- Case-insensitive equality `a.lower() == b.lower()` used throughout the
manager for title comparisons. -/
def ciEq (a b : String) : Bool := pyLower a == pyLower b

/-- Model of Python's substring containment `needle in hay` on the
character lists of the two strings. -/
def listContains (needle : List Char) : List Char → Bool
  | [] => needle.isEmpty
  | c :: t => needle.isPrefixOf (c :: t) || listContains needle t

/-- The `Book` dataclass: autor, titulo, quantidade (int, default 1) and the
optional string fields isbn, editora, ano, genero. -/
structure Book where
  autor : String
  titulo : String
  quantidade : Int
  isbn : String := ""
  editora : String := ""
  ano : String := ""
  genero : String := ""
deriving DecidableEq

/-- Model of `BookManager.add_book`: scan for the first record whose title matches
case-insensitively; if found, add the given quantity to it (leaving every
other field and record unchanged); otherwise append a new record built from
the given fields. -/
def addBook (books : List Book) (autor titulo : String) (quantidade : Int)
    (isbn editora ano genero : String) : List Book :=
  match books with
  | [] => [⟨autor, titulo, quantidade, isbn, editora, ano, genero⟩]
  | b :: rest =>
    if ciEq b.titulo titulo then
      { b with quantidade := b.quantidade + quantidade } :: rest
    else
      b :: addBook rest autor titulo quantidade isbn editora ano genero

/-- Model of `BookManager.remove_book`: keep exactly the records whose title does not
match case-insensitively; report `true` iff the length changed. -/
def removeBook (books : List Book) (titulo : String) : List Book × Bool :=
  let remaining := books.filter fun b => !(ciEq b.titulo titulo)
  (remaining, remaining.length != books.length)

/-- Model of `BookManager.update_book`: find the first record matching
`originalTitulo` case-insensitively (else fail); fail if any other record
(by position, mirroring the `is target` identity check) matches the new
title case-insensitively; otherwise overwrite every field of the target. -/
def updateBook (books : List Book) (originalTitulo autor titulo : String)
    (quantidade : Int) (isbn editora ano genero : String) : List Book × Bool :=
  match books.findIdx? (fun b => ciEq b.titulo originalTitulo) with
  | none => (books, false)
  | some k =>
    if books.enum.any (fun p => p.1 != k && ciEq p.2.titulo titulo) then
      (books, false)
    else
      (books.set k ⟨autor, titulo, quantidade, isbn, editora, ano, genero⟩, true)

/-- Model of `BookManager.increase_quantity`: first case-insensitive title match gets
`quantidade + amount` (no clamping); `true` iff a match was found. -/
def increaseQuantity (books : List Book) (titulo : String) (amount : Int) :
    List Book × Bool :=
  match books with
  | [] => ([], false)
  | b :: rest =>
    if ciEq b.titulo titulo then
      ({ b with quantidade := b.quantidade + amount } :: rest, true)
    else
      let r := increaseQuantity rest titulo amount
      (b :: r.1, r.2)

/-- Model of `BookManager.decrease_quantity`: first case-insensitive title match gets
`max 0 (quantidade - amount)`; `true` iff a match was found. -/
def decreaseQuantity (books : List Book) (titulo : String) (amount : Int) :
    List Book × Bool :=
  match books with
  | [] => ([], false)
  | b :: rest =>
    if ciEq b.titulo titulo then
      ({ b with quantidade := max 0 (b.quantidade - amount) } :: rest, true)
    else
      let r := decreaseQuantity rest titulo amount
      (b :: r.1, r.2)

/-- Model of `BookManager.find_by_author`: case-insensitive substring filter on the
autor field, preserving order. -/
def findByAuthor (books : List Book) (autor : String) : List Book :=
  books.filter fun b => listContains (pyLower autor).data (pyLower b.autor).data

/-- Model of `BookManager.find_by_title`: case-insensitive substring filter on the
titulo field, preserving order. -/
def findByTitle (books : List Book) (titulo : String) : List Book :=
  books.filter fun b => listContains (pyLower titulo).data (pyLower b.titulo).data

-- The Excel backend. A sheet is modelled as a list of rows of cells; a
-- cell is text, an integer, or empty (a missing value, NaN after reading).
-- `load_books`'s guard for a missing file is outside this pure model: the
-- model describes loading an existing sheet.

/-- A spreadsheet cell: text, an integer, or a blank cell. -/
inductive Cell where
  | str (s : String)
  | int (n : Int)
  | empty
deriving DecidableEq

/-- Cell written by openpyxl for a string value: the empty string is
written as a blank cell. -/
def strCell (s : String) : Cell := if s = "" then Cell.empty else Cell.str s

/-- Missing-value normalization performed by `pd.read_excel`: a blank cell
is a missing value, and an empty text cell is one of the default
`na_values`; both surface as NaN. -/
def naCell (c : Cell) : Cell := if c = Cell.str "" then Cell.empty else c

/-- Text of a data cell as `str(...)` produces it in `Book.from_series`:
a missing value is the float NaN, whose `str` is the string "nan". -/
def cellStr : Cell → String
  | Cell.str s => s
  | Cell.int n => toString n
  | Cell.empty => "nan"

/-- Column name pandas assigns to one header cell, after the loader's
`str(c).lower().strip()`: a blank (or empty-text) header cell at position
`i` is named "Unnamed: i" by pandas, lowered to "unnamed: i". -/
def headerName (i : Nat) (c : Cell) : String :=
  match naCell c with
  | Cell.empty => "unnamed: " ++ toString i
  | c' => pyStrip (pyLower (cellStr c'))

/-- Column names from a header row: `str(c).lower().strip()` per cell,
with pandas' positional names for blank header cells. -/
def normalizeHeader (row : List Cell) : List String :=
  row.enum.map fun p => headerName p.1 p.2

/-- The legacy-alias step: rename a column named "livro" to "titulo". -/
def applyLivroRename (h : List String) : List String :=
  h.map fun c => if c = "livro" then "titulo" else c

/-- Header detection of `load_books` (lines 74-85): read with row 0 as the
header; if it has no "autor" column, or neither "titulo" nor "livro",
re-read with row 1 as the header (two-row legacy layout). Returns the
normalized header together with the data rows. -/
def rawHeaderData (rows : List (List Cell)) : List String × List (List Cell) :=
  if "autor" ∉ normalizeHeader (rows.headD []) ∨
      ("titulo" ∉ normalizeHeader (rows.headD [])
        ∧ "livro" ∉ normalizeHeader (rows.headD [])) then
    (normalizeHeader ((rows.drop 1).headD []), rows.drop 2)
  else
    (normalizeHeader (rows.headD []), rows.drop 1)

/-- The known column names of the quantity-inference step. -/
def knownCols : List String :=
  ["autor", "titulo", "livro", "isbn", "editora", "ano", "genero"]

/-- The set difference `set(df.columns) - known_cols`: the columns outside
the known set, duplicates collapsed, in column order. -/
def unrecognizedCols (h : List String) : List String :=
  h.dedup.filter fun c => !(knownCols.contains c)

/-- Quantity-column inference (lines 93-97): when at least one unrecognized
column remains and no column is already named "quantidade", rename one
unrecognized column to "quantidade". Python pops an arbitrary element of
the set; the model takes the first unrecognized column in column order. -/
def inferHeader (h : List String) : List String :=
  if unrecognizedCols h ≠ [] ∧ "quantidade" ∉ h then
    h.map fun c => if c = (unrecognizedCols h).headD "" then "quantidade" else c
  else h

/-- The full header computation of `load_books`. -/
def loadHeader (rows : List (List Cell)) : List String × List (List Cell) :=
  (inferHeader (applyLivroRename (rawHeaderData rows).1), (rawHeaderData rows).2)

/-- Cell of a row under a named column, if the column exists (first match
for duplicated names; a short row yields an empty cell). -/
def colCell (h : List String) (row : List Cell) (c : String) : Option Cell :=
  (h.findIdx? fun x => x == c).map fun i => row.getD i Cell.empty

/-- String field of `Book.from_series`: the stripped `str(...)` of the
cell when the column exists (so a missing value yields "nan"), otherwise
the empty default. -/
def getStrField (h : List String) (row : List Cell) (c : String) : String :=
  match colCell h row c with
  | none => ""
  | some cell => pyStrip (cellStr (naCell cell))

/-- Decimal integer parse, modelling `astype(int)` on a text cell. -/
def parseIntStr (s : String) : Option Int :=
  match s.data with
  | [] => none
  | '-' :: ds =>
    if ds ≠ [] ∧ ds.all Char.isDigit then
      some (-((ds.foldl (fun n c => 10 * n + (c.toNat - 48)) 0 : Nat) : Int))
    else none
  | ds =>
    if ds.all Char.isDigit then
      some ((ds.foldl (fun n c => 10 * n + (c.toNat - 48)) 0 : Nat) : Int)
    else none

/-- Quantity of a record (lines 99-102 plus `from_series` 44-47): when a
"quantidade" column exists, its value with missing values defaulted to 1
(`fillna(1)`); otherwise 1 for every record. On a NON-numeric text cell
the program's `astype(int)` raises ValueError and the whole load aborts;
this total model maps that branch to the missing-value default — no
theorem below depends on it. -/
def getQty (h : List String) (row : List Cell) : Int :=
  if "quantidade" ∈ h then
    match (colCell h row "quantidade").map naCell with
    | some (Cell.int n) => n
    | some (Cell.str s) => (parseIntStr s).getD 1
    | some Cell.empty => 1
    | none => 1
  else 1

/-- Model of `Book.from_series` applied to one data row under a header. -/
def rowToBook (h : List String) (row : List Cell) : Book :=
  ⟨getStrField h row "autor", getStrField h row "titulo", getQty h row,
   getStrField h row "isbn", getStrField h row "editora",
   getStrField h row "ano", getStrField h row "genero"⟩

/-- Model of `ExcelStorage.load_books` on the rows of an existing sheet. -/
def excelLoadBooks (rows : List (List Cell)) : List Book :=
  ((loadHeader rows).2).map (rowToBook (loadHeader rows).1)

/-- Decorative first row written by `save_books`: the title text followed
by six empty strings, which openpyxl stores as blank cells. -/
def preambleRow : List Cell :=
  [strCell "RELAÇÃO DE LIVROS / REMIÇÃO PELA LEITURA", strCell "", strCell "",
   strCell "", strCell "", strCell "", strCell ""]

/-- Canonical header row written by `save_books`. -/
def canonicalHeaderRow : List Cell :=
  [strCell "autor", strCell "titulo", strCell "quantidade", strCell "isbn",
   strCell "editora", strCell "ano", strCell "genero"]

/-- The canonical column names of the saved layout. -/
def canonHeader : List String :=
  ["autor", "titulo", "quantidade", "isbn", "editora", "ano", "genero"]

/-- Data row written by `save_books` for one record: string fields through
openpyxl (empty strings become blank cells), the quantity as an integer. -/
def bookRow (b : Book) : List Cell :=
  [strCell b.autor, strCell b.titulo, Cell.int b.quantidade, strCell b.isbn,
   strCell b.editora, strCell b.ano, strCell b.genero]

/-- Model of `ExcelStorage.save_books`: the decorative row, the canonical header,
then one row per record in order. -/
def excelSaveBooks (books : List Book) : List (List Cell) :=
  preambleRow :: canonicalHeaderRow :: books.map bookRow

-- The SQLite backend. The table is modelled as the list of its rows in
-- insertion order (rowids ascending). SQLite's NOCASE collation folds the
-- letters A-Z to lower case and compares the folded texts; `Char.toLower`
-- performs exactly that ASCII fold, and `lexLe` is the lexicographic
-- comparison of the folded code points.

/-- Lexicographic comparison of code-point lists, modelling SQLite's text
comparison under the NOCASE collation (applied to already-folded keys). -/
def lexLe : List Nat → List Nat → Bool
  | [], _ => true
  | _ :: _, [] => false
  | a :: as, b :: bs =>
    if a < b then true else if b < a then false else lexLe as bs

/-- Collation key of a title under the NOCASE collation: the code points of
the ASCII-lowercased text. -/
def nocaseKey (s : String) : List Nat := s.data.map fun c => (Char.toLower c).toNat

/-- The comparison used by `ORDER BY titulo COLLATE NOCASE`. -/
def sqliteTitleLe (a b : Book) : Prop :=
  lexLe (nocaseKey a.titulo) (nocaseKey b.titulo) = true

instance : DecidableRel sqliteTitleLe := fun a b =>
  decidable_of_iff (lexLe (nocaseKey a.titulo) (nocaseKey b.titulo) = true) Iff.rfl

/-- Model of `SQLiteStorage.load_books`: `SELECT ... FROM books ORDER BY titulo
COLLATE NOCASE` returns the rows sorted by the case-folded title; the sort
is modelled by insertion sort under `sqliteTitleLe`. -/
def sqliteLoadBooks (table : List Book) : List Book :=
  List.insertionSort sqliteTitleLe table

/-- Model of `SQLiteStorage.save_books`: `DELETE FROM books` followed by a bulk
`INSERT` of every record. The unique index `idx_books_titulo_nocase` on
`titulo COLLATE NOCASE` makes the insert fail with an integrity error as
soon as two inserted rows have the same case-folded title; otherwise the
table afterwards holds exactly the given records in insertion order. -/
def sqliteSaveBooks (books : List Book) : Except String (List Book) :=
  if (books.map fun b => nocaseKey b.titulo).Nodup then Except.ok books
  else Except.error "UNIQUE constraint failed: books.titulo"

theorem lexLe_trans : ∀ l1 l2 l3 : List Nat,
    lexLe l1 l2 = true → lexLe l2 l3 = true → lexLe l1 l3 = true
  | [], _, _, _, _ => rfl
  | _ :: _, [], _, h12, _ => by simp [lexLe] at h12
  | _ :: _, _ :: _, [], _, h23 => by simp [lexLe] at h23
  | a :: as, b :: bs, c :: cs, h12, h23 => by
    simp only [lexLe] at h12 h23 ⊢
    rcases Nat.lt_trichotomy a b with hab | hab | hab
    · rcases Nat.lt_trichotomy b c with hbc | hbc | hbc
      · rw [if_pos (by omega)]
      · rw [if_pos (by omega)]
      · rw [if_neg (by omega), if_pos hbc] at h23
        exact absurd h23 (by simp)
    · subst hab
      rcases Nat.lt_trichotomy a c with hac | hac | hac
      · rw [if_pos hac]
      · subst hac
        rw [if_neg (by omega), if_neg (by omega)] at h12 h23 ⊢
        exact lexLe_trans as bs cs h12 h23
      · rw [if_neg (by omega), if_pos hac] at h23
        exact absurd h23 (by simp)
    · rw [if_neg (by omega), if_pos hab] at h12
      exact absurd h12 (by simp)

theorem lexLe_total : ∀ l1 l2 : List Nat, lexLe l1 l2 = true ∨ lexLe l2 l1 = true
  | [], _ => Or.inl rfl
  | _ :: _, [] => Or.inr rfl
  | a :: as, b :: bs => by
    simp only [lexLe]
    rcases Nat.lt_trichotomy a b with hab | hab | hab
    · left
      rw [if_pos hab]
    · subst hab
      simp only [Nat.lt_irrefl, if_false]
      exact lexLe_total as bs
    · right
      rw [if_pos hab]

theorem map_nodup_get?_ne {α β : Type} {f : α → β} {l : List α} {j k : Nat}
    {x y : α} (hnd : (l.map f).Nodup) (hj : l.get? j = some x)
    (hk : l.get? k = some y) (hjk : j ≠ k) : f x ≠ f y := by
  rw [List.get?_eq_some] at hj hk
  obtain ⟨hjl, hjx⟩ := hj
  obtain ⟨hkl, hky⟩ := hk
  rw [List.get_eq_getElem] at hjx hky
  intro heq
  apply hjk
  have hjl' : j < (l.map f).length := by simpa using hjl
  have hkl' : k < (l.map f).length := by simpa using hkl
  have hmj : (l.map f)[j] = f x := by rw [List.getElem_map, hjx]
  have hmk : (l.map f)[k] = f y := by rw [List.getElem_map, hky]
  refine (@List.Nodup.getElem_inj_iff β _ hnd j hjl' k hkl').mp ?_
  rw [hmj, hmk]
  exact heq

/-- C7: the relational backend's load returns the stored records ordered by
title in lexicographic case-insensitive ascending order (a permutation of
the table sorted under the NOCASE comparison); in particular, load after a
save of two records titled "Alpha" and "beta" returns them in the order
["Alpha", "beta"]. -/
theorem sqliteLoadBooks_sorted (table : List Book) :
    (sqliteLoadBooks table).Sorted sqliteTitleLe
    ∧ (sqliteLoadBooks table).Perm table
    ∧ sqliteSaveBooks [⟨"B", "beta", 1, "", "", "", ""⟩,
          ⟨"A", "Alpha", 1, "", "", "", ""⟩] =
        Except.ok [⟨"B", "beta", 1, "", "", "", ""⟩, ⟨"A", "Alpha", 1, "", "", "", ""⟩]
    ∧ sqliteLoadBooks [⟨"B", "beta", 1, "", "", "", ""⟩,
          ⟨"A", "Alpha", 1, "", "", "", ""⟩] =
        [⟨"A", "Alpha", 1, "", "", "", ""⟩, ⟨"B", "beta", 1, "", "", "", ""⟩] := by
  haveI : IsTotal Book sqliteTitleLe := ⟨fun a b => lexLe_total _ _⟩
  haveI : IsTrans Book sqliteTitleLe := ⟨fun _ _ _ => lexLe_trans _ _ _⟩
  refine ⟨List.sorted_insertionSort _ _, List.perm_insertionSort _ _, ?_, by decide⟩
  unfold sqliteSaveBooks
  rw [if_pos (by decide)]

/-- C8: if the collection passed to the relational backend's save contains
two records (at different positions) with case-insensitively equal titles,
the save fails with a constraint-violation error from the case-insensitive
unique index on title, rather than silently dropping the duplicate. -/
theorem sqliteSaveBooks_duplicate_error (books : List Book) (j k : Nat)
    (x y : Book) (hj : books.get? j = some x) (hk : books.get? k = some y)
    (hjk : j ≠ k) (heq : nocaseKey x.titulo = nocaseKey y.titulo) :
    sqliteSaveBooks books =
      Except.error "UNIQUE constraint failed: books.titulo" := by
  have hnd : ¬ (books.map fun b => nocaseKey b.titulo).Nodup := by
    intro hnd
    exact map_nodup_get?_ne hnd hj hk hjk heq
  simp [sqliteSaveBooks, hnd]

/-- Witness for C8: saving a collection holding both "Dom" and "DOM" (equal
after case folding) fails with the constraint-violation error. -/
theorem sqliteSaveBooks_duplicate_error_witness :
    sqliteSaveBooks [⟨"A", "Dom", 1, "", "", "", ""⟩,
        ⟨"B", "DOM", 2, "", "", "", ""⟩] =
      Except.error "UNIQUE constraint failed: books.titulo" :=
  sqliteSaveBooks_duplicate_error
    [⟨"A", "Dom", 1, "", "", "", ""⟩, ⟨"B", "DOM", 2, "", "", "", ""⟩]
    0 1 ⟨"A", "Dom", 1, "", "", "", ""⟩ ⟨"B", "DOM", 2, "", "", "", ""⟩
    rfl rfl (by decide) (by decide)

-- Basic facts about the string helpers.

theorem ciEq_eq_true_iff {a b : String} : ciEq a b = true ↔ pyLower a = pyLower b := by
  simp [ciEq]

theorem listContains_nil (hay : List Char) : listContains [] hay = true := by
  cases hay <;> simp [listContains, List.isPrefixOf]

theorem ciEq_of_ciEq_ciEq {a b t : String} (ha : ciEq a t = true)
    (hb : ciEq b t = true) : ciEq a b = true := by
  rw [ciEq_eq_true_iff] at *
  exact ha.trans hb.symm

theorem ciEq_false_of_ciEq {a b t : String} (ha : ciEq a t = false)
    (hb : ciEq b t = true) : ciEq a b = false := by
  rw [ciEq_eq_true_iff] at hb
  have h : ciEq a b = ciEq a t := by simp [ciEq, hb]
  rw [h]
  exact ha

-- Behaviour of `addBook` on the two cases of the scan.

theorem addBook_no_match (books : List Book) (a t : String) (q : Int)
    (i e y g : String) (h : ∀ b ∈ books, ciEq b.titulo t = false) :
    addBook books a t q i e y g = books ++ [⟨a, t, q, i, e, y, g⟩] := by
  induction books with
  | nil => rfl
  | cons b rest ih =>
    have hb : ciEq b.titulo t = false := h b (List.mem_cons_self b rest)
    simp only [addBook, hb, Bool.false_eq_true, if_false, List.cons_append,
      List.cons.injEq, true_and]
    exact ih fun x hx => h x (List.mem_cons_of_mem b hx)

theorem addBook_first_match (pre : List Book) (b : Book) (post : List Book)
    (a t : String) (q : Int) (i e y g : String)
    (hpre : ∀ p ∈ pre, ciEq p.titulo t = false) (hb : ciEq b.titulo t = true) :
    addBook (pre ++ b :: post) a t q i e y g =
      pre ++ { b with quantidade := b.quantidade + q } :: post := by
  induction pre with
  | nil => simp [addBook, hb]
  | cons p rest ih =>
    have hp : ciEq p.titulo t = false := hpre p (List.mem_cons_self p rest)
    simp only [List.cons_append, addBook, hp, Bool.false_eq_true, if_false,
      List.cons.injEq, true_and]
    exact ih fun x hx => hpre x (List.mem_cons_of_mem p hx)

/-- A sequence of `add_book` calls, each a triple (autor, titulo, quantidade)
with the optional fields left at their defaults. -/
def addSeq (books : List Book) (calls : List (String × String × Int)) : List Book :=
  calls.foldl (fun bs c => addBook bs c.1 c.2.1 c.2.2 "" "" "" "") books

/-- Total quantity of a sequence of `add_book` calls. -/
def sumQ (calls : List (String × String × Int)) : Int :=
  (calls.map fun c => c.2.2).sum

theorem addSeq_acc (calls : List (String × String × Int)) (books : List Book)
    (B : Book) (t : String)
    (hbooks : ∀ b ∈ books, ciEq b.titulo t = false) (hB : ciEq B.titulo t = true)
    (hcalls : ∀ c ∈ calls, ciEq c.2.1 t = true) :
    addSeq (books ++ [B]) calls =
      books ++ [{ B with quantidade := B.quantidade + sumQ calls }] := by
  induction calls generalizing B with
  | nil =>
    simp [addSeq, sumQ]
  | cons c rest ih =>
    have hc : ciEq c.2.1 t = true := hcalls c (List.mem_cons_self c rest)
    have hmatch : ciEq B.titulo c.2.1 = true := ciEq_of_ciEq_ciEq hB hc
    have hstep : addBook (books ++ [B]) c.1 c.2.1 c.2.2 "" "" "" "" =
        books ++ [{ B with quantidade := B.quantidade + c.2.2 }] :=
      addBook_first_match books B [] c.1 c.2.1 c.2.2 "" "" "" ""
        (fun p hp => ciEq_false_of_ciEq (hbooks p hp) hc) hmatch
    have htail : addSeq (books ++ [{ B with quantidade := B.quantidade + c.2.2 }]) rest =
        books ++ [{ B with quantidade := B.quantidade + c.2.2 + sumQ rest }] :=
      ih { B with quantidade := B.quantidade + c.2.2 } hB
        (fun x hx => hcalls x (List.mem_cons_of_mem c hx))
    have : addSeq (books ++ [B]) (c :: rest) =
        addSeq (books ++ [{ B with quantidade := B.quantidade + c.2.2 }]) rest := by
      simp [addSeq, hstep]
    rw [this, htail]
    simp [sumQ, add_assoc]

/-- C1: `add` is upsert-by-title with quantity accumulation. If no record's
title matches case-insensitively, a new record with the given fields is
appended; if some record matches, the first such record's quantity is
incremented by the given amount while all its other fields and all other
records stay unchanged and nothing is appended. Consequently, starting from
a collection with no record of a title, any non-empty sequence of `add`
calls whose titles are case-insensitively equal to it leaves exactly one
record of that title, whose quantity is the sum of the given quantities
(and leaves the rest of the collection unchanged). -/
theorem addBook_upsert_accumulates (books : List Book) (a t : String) (q : Int)
    (i e y g : String) :
    ((∀ b ∈ books, ciEq b.titulo t = false) →
        addBook books a t q i e y g = books ++ [⟨a, t, q, i, e, y, g⟩])
    ∧ (∀ pre b post, books = pre ++ b :: post →
        (∀ p ∈ pre, ciEq p.titulo t = false) → ciEq b.titulo t = true →
        addBook books a t q i e y g =
          pre ++ { b with quantidade := b.quantidade + q } :: post)
    ∧ (∀ calls : List (String × String × Int),
        (∀ b ∈ books, ciEq b.titulo t = false) →
        (∀ c ∈ calls, ciEq c.2.1 t = true) →
        ∀ c0 rest, calls = c0 :: rest →
        (addSeq books calls).filter (fun b => ciEq b.titulo t) =
            [⟨c0.1, c0.2.1, sumQ calls, "", "", "", ""⟩]
          ∧ (addSeq books calls).filter (fun b => !(ciEq b.titulo t)) = books) := by
  refine ⟨fun h => addBook_no_match books a t q i e y g h, ?_, ?_⟩
  · intro pre b post hsplit hpre hb
    rw [hsplit]
    exact addBook_first_match pre b post a t q i e y g hpre hb
  · intro calls hbooks hcalls c0 rest hsplit
    subst hsplit
    have hc0 : ciEq c0.2.1 t = true := hcalls c0 (List.mem_cons_self c0 rest)
    have hstep : addBook books c0.1 c0.2.1 c0.2.2 "" "" "" "" =
        books ++ [⟨c0.1, c0.2.1, c0.2.2, "", "", "", ""⟩] :=
      addBook_no_match books c0.1 c0.2.1 c0.2.2 "" "" "" ""
        (fun b hb => ciEq_false_of_ciEq (hbooks b hb) hc0)
    have hacc := addSeq_acc rest books ⟨c0.1, c0.2.1, c0.2.2, "", "", "", ""⟩ t
      hbooks hc0 (fun x hx => hcalls x (List.mem_cons_of_mem c0 hx))
    have hres : addSeq books (c0 :: rest) =
        books ++ [⟨c0.1, c0.2.1, c0.2.2 + sumQ rest, "", "", "", ""⟩] := by
      have : addSeq books (c0 :: rest) =
          addSeq (books ++ [⟨c0.1, c0.2.1, c0.2.2, "", "", "", ""⟩]) rest := by
        simp [addSeq, hstep]
      rw [this, hacc]
    rw [hres]
    have hsum : sumQ (c0 :: rest) = c0.2.2 + sumQ rest := by
      simp [sumQ]
    constructor
    · rw [List.filter_append]
      have h1 : books.filter (fun b => ciEq b.titulo t) = [] := by
        rw [List.filter_eq_nil_iff]
        intro b hb
        simp [hbooks b hb]
      rw [h1, hsum]
      simp [hc0]
    · rw [List.filter_append]
      have h1 : books.filter (fun b => !(ciEq b.titulo t)) = books := by
        rw [List.filter_eq_self]
        intro b hb
        simp [hbooks b hb]
      rw [h1]
      simp [hc0]

/-- Witness for C1 at the spec's scenario: two adds of "Dom Casmurro" with
quantities 2 and 3 into an empty collection leave exactly one matching
record, with quantity 5. -/
theorem addBook_upsert_accumulates_witness :
    (addSeq [] [("Machado de Assis", "Dom Casmurro", 2),
        ("Machado de Assis", "Dom Casmurro", 3)]).filter
        (fun b => ciEq b.titulo "Dom Casmurro") =
      [⟨"Machado de Assis", "Dom Casmurro", 5, "", "", "", ""⟩] := by
  have h := ((addBook_upsert_accumulates [] "Machado de Assis" "Dom Casmurro"
      1 "" "" "" "").2.2
    [("Machado de Assis", "Dom Casmurro", 2), ("Machado de Assis", "Dom Casmurro", 3)]
    (by simp) (by decide) ("Machado de Assis", "Dom Casmurro", 2)
    [("Machado de Assis", "Dom Casmurro", 3)] rfl).1
  simpa [sumQ] using h

theorem increaseQuantity_first_match (pre : List Book) (b : Book)
    (post : List Book) (t : String) (amount : Int)
    (hpre : ∀ p ∈ pre, ciEq p.titulo t = false) (hb : ciEq b.titulo t = true) :
    increaseQuantity (pre ++ b :: post) t amount =
      (pre ++ { b with quantidade := b.quantidade + amount } :: post, true) := by
  induction pre with
  | nil => simp [increaseQuantity, hb]
  | cons p rest ih =>
    have hp : ciEq p.titulo t = false := hpre p (List.mem_cons_self p rest)
    have ihr := ih fun x hx => hpre x (List.mem_cons_of_mem p hx)
    simp [increaseQuantity, hp, ihr]

/-- C10: `increase_quantity` applies no clamping or validation of the
amount: the first case-insensitive title match gets its quantity set to the
old quantity plus the amount (any integer, including negative) and the call
returns true; in particular a negative amount can drive a stored quantity
negative. -/
theorem increaseQuantity_unclamped (pre : List Book) (b : Book)
    (post : List Book) (t : String) (amount : Int)
    (hpre : ∀ p ∈ pre, ciEq p.titulo t = false) (hb : ciEq b.titulo t = true) :
    increaseQuantity (pre ++ b :: post) t amount =
      (pre ++ { b with quantidade := b.quantidade + amount } :: post, true)
    ∧ (increaseQuantity [⟨"A", "T", 1, "", "", "", ""⟩] "T" (-5)).1 =
        [⟨"A", "T", -4, "", "", "", ""⟩] := by
  refine ⟨increaseQuantity_first_match pre b post t amount hpre hb, by decide⟩

/-- Witness for C10: increasing "T" by -5 on a single-record collection of
quantity 1 succeeds and stores the negative quantity -4. -/
theorem increaseQuantity_unclamped_witness :
    increaseQuantity [⟨"A", "T", 1, "", "", "", ""⟩] "T" (-5) =
      ([⟨"A", "T", -4, "", "", "", ""⟩], true) := by
  have h := (increaseQuantity_unclamped [] ⟨"A", "T", 1, "", "", "", ""⟩ []
    "T" (-5) (by simp) (by decide)).1
  simpa using h

theorem nodupKeys_get?_ne {books : List Book} {j k : Nat} {x y : Book}
    (hnd : (books.map fun b => pyLower b.titulo).Nodup)
    (hj : books.get? j = some x) (hk : books.get? k = some y) (hjk : j ≠ k) :
    pyLower x.titulo ≠ pyLower y.titulo := by
  rw [List.get?_eq_some] at hj hk
  obtain ⟨hjl, hjx⟩ := hj
  obtain ⟨hkl, hky⟩ := hk
  rw [List.get_eq_getElem] at hjx hky
  intro heq
  apply hjk
  have hjl' : j < (books.map fun b => pyLower b.titulo).length := by simpa using hjl
  have hkl' : k < (books.map fun b => pyLower b.titulo).length := by simpa using hkl
  have hmj : (books.map fun b => pyLower b.titulo)[j] = pyLower x.titulo := by
    rw [List.getElem_map, hjx]
  have hmk : (books.map fun b => pyLower b.titulo)[k] = pyLower y.titulo := by
    rw [List.getElem_map, hky]
  refine (@List.Nodup.getElem_inj_iff String _ hnd j hjl' k hkl').mp ?_
  rw [hmj, hmk]
  exact heq

/-- C4: `update_book` finds the first record whose title case-insensitively
equals the original title and returns false if none exists; it returns
false without modifying anything when a record other than the target itself
case-insensitively matches the new title; otherwise it overwrites all
fields of the target in place and returns true. On a collection without
duplicate titles, renaming a record's title to itself (or a case variant of
itself) therefore succeeds. -/
theorem updateBook_spec (books : List Book) (orig a t : String) (q : Int)
    (i e y g : String) :
    ((∀ b ∈ books, ciEq b.titulo orig = false) →
        updateBook books orig a t q i e y g = (books, false))
    ∧ (∀ k, books.findIdx? (fun b => ciEq b.titulo orig) = some k →
        ((∃ j b', j ≠ k ∧ books.get? j = some b' ∧ ciEq b'.titulo t = true) →
            updateBook books orig a t q i e y g = (books, false))
        ∧ ((∀ j b', books.get? j = some b' → j ≠ k → ciEq b'.titulo t = false) →
            updateBook books orig a t q i e y g =
              (books.set k ⟨a, t, q, i, e, y, g⟩, true)))
    ∧ ((books.map fun b => pyLower b.titulo).Nodup →
        pyLower t = pyLower orig →
        (∃ b ∈ books, ciEq b.titulo orig = true) →
        (updateBook books orig a t q i e y g).2 = true) := by
  have hany : ∀ k, (books.enum.any fun p => p.1 != k && ciEq p.2.titulo t) = true ↔
      ∃ j b', j ≠ k ∧ books.get? j = some b' ∧ ciEq b'.titulo t = true := by
    intro k
    rw [List.any_eq_true]
    constructor
    · rintro ⟨⟨j, b'⟩, hmem, hp⟩
      rw [List.mem_enum_iff_get?] at hmem
      simp only [Bool.and_eq_true, bne_iff_ne, ne_eq] at hp
      exact ⟨j, b', hp.1, hmem, hp.2⟩
    · rintro ⟨j, b', hjk, hget, hci⟩
      refine ⟨(j, b'), ?_, ?_⟩
      · rw [List.mem_enum_iff_get?]
        exact hget
      · simp only [Bool.and_eq_true, bne_iff_ne, ne_eq]
        exact ⟨hjk, hci⟩
  have hsucc : ∀ k, books.findIdx? (fun b => ciEq b.titulo orig) = some k →
      (∀ j b', books.get? j = some b' → j ≠ k → ciEq b'.titulo t = false) →
      updateBook books orig a t q i e y g =
        (books.set k ⟨a, t, q, i, e, y, g⟩, true) := by
    intro k hk hnoconf
    have hfalse : (books.enum.any fun p => p.1 != k && ciEq p.2.titulo t) = false := by
      rw [Bool.eq_false_iff]
      intro habs
      obtain ⟨j, b', hjk, hget, hci⟩ := (hany k).mp habs
      have := hnoconf j b' hget hjk
      rw [this] at hci
      exact Bool.false_ne_true hci
    simp [updateBook, hk, hfalse]
  refine ⟨?_, ?_, ?_⟩
  · intro h
    have hnone : books.findIdx? (fun b => ciEq b.titulo orig) = none := by
      rw [List.findIdx?_eq_none_iff]
      intro x hx
      exact h x hx
    simp [updateBook, hnone]
  · intro k hk
    constructor
    · intro hconf
      have := (hany k).mpr hconf
      simp [updateBook, hk, this]
    · exact hsucc k hk
  · intro hnd ht hex
    obtain ⟨b0, hb0mem, hb0⟩ := hex
    have hsome : ∃ x, x ∈ books ∧ ciEq x.titulo orig := ⟨b0, hb0mem, hb0⟩
    have hidx := List.findIdx?_eq_some_of_exists hsome
    set k := books.findIdx (fun b => ciEq b.titulo orig) with hkdef
    obtain ⟨hklt, hpk, -⟩ := List.findIdx?_eq_some_iff_getElem.mp hidx
    have hkget : books.get? k = some (books.get ⟨k, hklt⟩) := by
      rw [List.get?_eq_some]
      exact ⟨hklt, rfl⟩
    have hktitle : pyLower (books.get ⟨k, hklt⟩).titulo = pyLower orig := by
      have hci : ciEq (books.get ⟨k, hklt⟩).titulo orig = true := by
        simpa using hpk
      exact ciEq_eq_true_iff.mp hci
    have hnoconf : ∀ j b', books.get? j = some b' → j ≠ k →
        ciEq b'.titulo t = false := by
      intro j b' hget hjk
      rw [Bool.eq_false_iff]
      intro hci
      have hne := nodupKeys_get?_ne hnd hget hkget hjk
      apply hne
      rw [ciEq_eq_true_iff.mp hci, ht, hktitle]
    rw [hsucc k hidx hnoconf]

/-- Witness for C4: on a duplicate-free collection containing
"Dom Casmurro", renaming "Dom Casmurro" to itself succeeds. -/
theorem updateBook_spec_witness :
    (updateBook [⟨"X", "Dom Casmurro", 1, "", "", "", ""⟩] "Dom Casmurro"
      "X" "Dom Casmurro" 2 "" "" "" "").2 = true :=
  (updateBook_spec [⟨"X", "Dom Casmurro", 1, "", "", "", ""⟩] "Dom Casmurro"
      "X" "Dom Casmurro" 2 "" "" "" "").2.2 (by decide) (by decide)
    ⟨⟨"X", "Dom Casmurro", 1, "", "", "", ""⟩, by decide, by decide⟩

/-- Counterexample to C5 as stated: in the collection
`["Dom", "Dom Casmurro"]` the title "Dom" is present (case-insensitively
equal to a record's title), yet `remove("Dom")` followed by
`find_by_title("Dom")` is not empty — `find_by_title` is a substring
search and still returns "Dom Casmurro". -/
theorem removeBook_findByTitle_cex :
    (∃ b ∈ ([⟨"A", "Dom", 1, "", "", "", ""⟩,
        ⟨"B", "Dom Casmurro", 1, "", "", "", ""⟩] : List Book),
      ciEq b.titulo "Dom" = true)
    ∧ findByTitle (removeBook [⟨"A", "Dom", 1, "", "", "", ""⟩,
        ⟨"B", "Dom Casmurro", 1, "", "", "", ""⟩] "Dom").1 "Dom" =
      [⟨"B", "Dom Casmurro", 1, "", "", "", ""⟩] := by decide

/-- C5 (amended): `remove(title)` deletes every record whose title
case-insensitively equals the given title — so `remove` followed by
`find_by_title(title)` returns no record whose title case-insensitively
equals that title (though, `find_by_title` being a substring search, records
whose titles merely contain it may remain) — and `remove` returns true
exactly when the collection size changed, i.e. exactly when some record's
title was case-insensitively equal to the given title. -/
theorem removeBook_spec (books : List Book) (t : String) :
    (∀ b ∈ (removeBook books t).1, ciEq b.titulo t = false)
    ∧ (∀ b ∈ findByTitle (removeBook books t).1 t, ciEq b.titulo t = false)
    ∧ ((removeBook books t).2 = true ↔ ∃ b ∈ books, ciEq b.titulo t = true) := by
  have hmem : ∀ b ∈ (removeBook books t).1, ciEq b.titulo t = false := by
    intro b hb
    simp only [removeBook, List.mem_filter] at hb
    simpa using hb.2
  refine ⟨hmem, ?_, ?_⟩
  · intro b hb
    exact hmem b (List.mem_of_mem_filter hb)
  · simp only [removeBook, bne_iff_ne, ne_eq]
    rw [not_iff_comm, not_exists]
    push_neg
    rw [List.filter_length_eq_length]
    constructor
    · intro h b hb
      simpa using h b hb
    · intro h b hb
      simpa using h b hb

/-- Witness for C5: removing "dom" from a collection holding "Dom" reports
true (the collection shrank). -/
theorem removeBook_spec_witness :
    (removeBook [⟨"A", "Dom", 1, "", "", "", ""⟩] "dom").2 = true :=
  ((removeBook_spec [⟨"A", "Dom", 1, "", "", "", ""⟩] "dom").2.2).mpr
    ⟨⟨"A", "Dom", 1, "", "", "", ""⟩, by decide, by decide⟩

theorem decreaseQuantity_first_match (pre : List Book) (b : Book)
    (post : List Book) (t : String) (amount : Int)
    (hpre : ∀ p ∈ pre, ciEq p.titulo t = false) (hb : ciEq b.titulo t = true) :
    decreaseQuantity (pre ++ b :: post) t amount =
      (pre ++ { b with quantidade := max 0 (b.quantidade - amount) } :: post, true) := by
  induction pre with
  | nil => simp [decreaseQuantity, hb]
  | cons p rest ih =>
    have hp : ciEq p.titulo t = false := hpre p (List.mem_cons_self p rest)
    have ihr := ih fun x hx => hpre x (List.mem_cons_of_mem p hx)
    simp [decreaseQuantity, hp, ihr]

/-- A sequence of `decrease_quantity` calls, each a pair (titulo, amount). -/
def decSeq (books : List Book) (calls : List (String × Int)) : List Book :=
  calls.foldl (fun bs c => (decreaseQuantity bs c.1 c.2).1) books

theorem decreaseQuantity_nonneg_step (books : List Book) (t : String)
    (amount : Int) (h : ∀ b ∈ books, 0 ≤ b.quantidade) :
    ∀ b ∈ (decreaseQuantity books t amount).1, 0 ≤ b.quantidade := by
  induction books with
  | nil => intro b hb; simp [decreaseQuantity] at hb
  | cons x rest ih =>
    intro b hb
    by_cases hx : ciEq x.titulo t = true
    · simp only [decreaseQuantity, hx, if_true, List.mem_cons] at hb
      rcases hb with hb | hb
      · rw [hb]
        exact le_max_left 0 _
      · exact h b (List.mem_cons_of_mem x hb)
    · rw [Bool.not_eq_true] at hx
      simp only [decreaseQuantity, hx, Bool.false_eq_true, if_false,
        List.mem_cons] at hb
      rcases hb with hb | hb
      · rw [hb]
        exact h x (List.mem_cons_self x rest)
      · exact ih (fun y hy => h y (List.mem_cons_of_mem x hy)) b hb

theorem decSeq_nonneg (calls : List (String × Int)) (books : List Book)
    (h : ∀ b ∈ books, 0 ≤ b.quantidade) :
    ∀ b ∈ decSeq books calls, 0 ≤ b.quantidade := by
  induction calls generalizing books with
  | nil => simpa [decSeq] using h
  | cons c rest ih =>
    intro b hb
    have hstep := decreaseQuantity_nonneg_step books c.1 c.2 h
    exact ih (decreaseQuantity books c.1 c.2).1 hstep b hb

/-- C6: `decrease_quantity` never produces a negative quantity. The first
case-insensitive match's quantity becomes `max 0 (quantity - amount)` with
nothing else changed, and from a collection of non-negative quantities any
sequence of decrease calls (any titles, any amounts) leaves every record's
quantity non-negative. -/
theorem decreaseQuantity_nonneg (books : List Book) (t : String) (amount : Int)
    (pre : List Book) (b : Book) (post : List Book)
    (hsplit : books = pre ++ b :: post)
    (hpre : ∀ p ∈ pre, ciEq p.titulo t = false) (hb : ciEq b.titulo t = true) :
    decreaseQuantity books t amount =
      (pre ++ { b with quantidade := max 0 (b.quantidade - amount) } :: post, true)
    ∧ (∀ calls : List (String × Int), (∀ x ∈ books, 0 ≤ x.quantidade) →
        ∀ x ∈ decSeq books calls, 0 ≤ x.quantidade) := by
  subst hsplit
  exact ⟨decreaseQuantity_first_match pre b post t amount hpre hb,
    fun calls h => decSeq_nonneg calls _ h⟩

/-- Witness for C6: decreasing "T" by 5 on a single record of quantity 2
clamps the quantity to 0, which is non-negative. -/
theorem decreaseQuantity_nonneg_witness :
    decreaseQuantity [⟨"A", "T", 2, "", "", "", ""⟩] "T" 5 =
      ([⟨"A", "T", 0, "", "", "", ""⟩], true)
    ∧ (0 : Int) ≤ (Book.mk "A" "T" 0 "" "" "" "").quantidade := by
  have h := decreaseQuantity_nonneg [⟨"A", "T", 2, "", "", "", ""⟩] "T" 5
    [] ⟨"A", "T", 2, "", "", "", ""⟩ [] rfl (by simp) (by decide)
  refine ⟨by simpa using h.1, ?_⟩
  exact h.2 [("T", 5)] (by decide) (Book.mk "A" "T" 0 "" "" "" "") (by decide)

/-- C9: `find_by_title("")` and `find_by_author("")` both return the entire
collection in its current order: the empty string is a substring of every
field value. -/
theorem findEmpty_returns_all (books : List Book) :
    findByTitle books "" = books ∧ findByAuthor books "" = books := by
  constructor
  · unfold findByTitle
    rw [List.filter_eq_self]
    intro b _
    exact listContains_nil _
  · unfold findByAuthor
    rw [List.filter_eq_self]
    intro b _
    exact listContains_nil _

/-- Counterexample to C2 as stated: with header
`autor, titulo, qtd, obs` two unrecognized columns remain, yet the loader
still renames one of them to "quantidade" (the code renames whenever at
least one remains, not exactly one) and the loaded record's quantity is
taken from that column (7 here, in both candidate columns, so the record is
the same whichever set element Python pops) instead of defaulting to 1. -/
theorem excelQuantityInference_cex :
    (unrecognizedCols (applyLivroRename (normalizeHeader
        [Cell.str "autor", Cell.str "titulo", Cell.str "qtd",
         Cell.str "obs"]))).length = 2
    ∧ excelLoadBooks
        [[Cell.str "autor", Cell.str "titulo", Cell.str "qtd", Cell.str "obs"],
         [Cell.str "A", Cell.str "T", Cell.int 7, Cell.int 7]] =
      [⟨"A", "T", 7, "", "", "", ""⟩] := by decide

/-- C2 (amended): an unrecognized column is renamed to the quantity column
whenever AT LEAST one unrecognized column remains and no column is already
named "quantidade"; the renamed column is an arbitrary member of the
unrecognized set (here its first element in column order). No renaming
occurs when a "quantidade" column exists or when no unrecognized column
remains; records default to quantity 1 exactly when the final header has no
"quantidade" column. -/
theorem excelQuantityInference (h : List String) :
    (unrecognizedCols h ≠ [] → "quantidade" ∉ h →
        (unrecognizedCols h).headD "" ∈ unrecognizedCols h
        ∧ inferHeader h =
            h.map fun c =>
              if c = (unrecognizedCols h).headD "" then "quantidade" else c)
    ∧ ("quantidade" ∈ h → inferHeader h = h)
    ∧ (unrecognizedCols h = [] → inferHeader h = h)
    ∧ ("quantidade" ∉ inferHeader h → ∀ row, getQty (inferHeader h) row = 1) := by
  refine ⟨?_, ?_, ?_, ?_⟩
  · intro hne hq
    constructor
    · match hu : unrecognizedCols h with
      | [] => exact absurd hu hne
      | c :: cs =>
        simp [List.headD]
    · unfold inferHeader
      rw [if_pos ⟨hne, hq⟩]
  · intro hq
    unfold inferHeader
    rw [if_neg]
    intro hcon
    exact hcon.2 hq
  · intro hu
    unfold inferHeader
    rw [if_neg]
    intro hcon
    exact hcon.1 hu
  · intro hq row
    unfold getQty
    rw [if_neg hq]

/-- Witness for C2: with the single unrecognized column "x" and no
"quantidade" column, the loader renames "x" to "quantidade". -/
theorem excelQuantityInference_witness :
    (unrecognizedCols ["autor", "x"]).headD "" ∈ unrecognizedCols ["autor", "x"]
    ∧ inferHeader ["autor", "x"] =
        (["autor", "x"].map fun c =>
          if c = (unrecognizedCols ["autor", "x"]).headD "" then "quantidade"
          else c) :=
  (excelQuantityInference ["autor", "x"]).1 (by decide) (by decide)

/-- A record whose string fields are unchanged by `str.strip` (no leading
or trailing whitespace). -/
def stripClean (b : Book) : Prop :=
  pyStrip b.autor = b.autor ∧ pyStrip b.titulo = b.titulo
    ∧ pyStrip b.isbn = b.isbn ∧ pyStrip b.editora = b.editora
    ∧ pyStrip b.ano = b.ano ∧ pyStrip b.genero = b.genero

instance (b : Book) : Decidable (stripClean b) := by
  unfold stripClean
  infer_instance

/-- A record whose string fields are all non-empty. An empty field is
written as a blank cell and reloads as the string "nan". -/
def nonEmptyFields (b : Book) : Prop :=
  b.autor ≠ "" ∧ b.titulo ≠ "" ∧ b.isbn ≠ "" ∧ b.editora ≠ ""
    ∧ b.ano ≠ "" ∧ b.genero ≠ ""

instance (b : Book) : Decidable (nonEmptyFields b) := by
  unfold nonEmptyFields
  infer_instance

theorem readStr_of_nonempty {s : String} (h : s ≠ "") :
    pyStrip (cellStr (naCell (strCell s))) = pyStrip s := by
  unfold strCell naCell cellStr
  rw [if_neg h, if_neg]
  simpa using h

theorem rawHeaderData_save (books : List Book) :
    rawHeaderData (excelSaveBooks books) =
      (normalizeHeader canonicalHeaderRow, books.map bookRow) := by
  unfold rawHeaderData excelSaveBooks
  rw [if_pos]
  · rfl
  · left
    show "autor" ∉ normalizeHeader preambleRow
    decide

theorem loadHeader_save (books : List Book) :
    loadHeader (excelSaveBooks books) = (canonHeader, books.map bookRow) := by
  unfold loadHeader
  rw [rawHeaderData_save]
  have h : inferHeader (applyLivroRename (normalizeHeader canonicalHeaderRow)) =
      canonHeader := by decide
  rw [h]

theorem rowToBook_bookRow (b : Book) (h : nonEmptyFields b) :
    rowToBook canonHeader (bookRow b) =
      ⟨pyStrip b.autor, pyStrip b.titulo, b.quantidade, pyStrip b.isbn,
       pyStrip b.editora, pyStrip b.ano, pyStrip b.genero⟩ := by
  obtain ⟨h1, h2, h3, h4, h5, h6⟩ := h
  show (⟨pyStrip (cellStr (naCell (strCell b.autor))),
      pyStrip (cellStr (naCell (strCell b.titulo))), b.quantidade,
      pyStrip (cellStr (naCell (strCell b.isbn))),
      pyStrip (cellStr (naCell (strCell b.editora))),
      pyStrip (cellStr (naCell (strCell b.ano))),
      pyStrip (cellStr (naCell (strCell b.genero)))⟩ : Book) = _
  rw [readStr_of_nonempty h1, readStr_of_nonempty h2, readStr_of_nonempty h3,
    readStr_of_nonempty h4, readStr_of_nonempty h5, readStr_of_nonempty h6]

